import Mathlib

/-!  Verification of the daily movement-planning engine of the SmartHackApp
supply-chain optimizer (src/optimize/src).  The Python source is shallowly
embedded: Python floats are modelled as exact rationals (ℚ), dictionaries as
total functions together with a key list, Python lists as Lean lists, and the
planner's while-loop as a structurally decreasing recursion.  `list.sort` in
CPython is a stable sort driven by `__lt__`; with `MovementOpportunity.__lt__`
returning `self.score > other.score` and `sort(reverse=True)`, the net order
is stable ASCENDING by score, which is what `sortOpportunities` implements
(stable sorts over a total preorder are extensionally unique, so
`List.insertionSort` is a faithful model).  -/

namespace SmartHack

/-- Facility record, from src/models/facility.py.  -/
structure Facility where
  id : String
  capacity : ℚ
  current_level : ℚ
deriving Repr, DecidableEq

/-- Connection record, from src/models/connection.py.  -/
structure Connection where
  id : String
  source_id : String
  destination_id : String
  transport_type : String
  lead_time : ℕ
  max_capacity : ℚ
  distance : ℚ
  cost_per_unit_distance : ℚ
  co2_per_unit_distance : ℚ
deriving Repr, DecidableEq

/-- Connection.calculate_metrics: (cost, co2) for moving a quantity.  -/
def calculate_metrics (c : Connection) (quantity : ℚ) : ℚ × ℚ :=
  (quantity * c.distance * c.cost_per_unit_distance,
   quantity * c.distance * c.co2_per_unit_distance)

/-- Demand record, from src/models/demand.py (remaining_quantity is stored
explicitly; `__post_init__` initializes it to `quantity`).  -/
structure Demand where
  id : String
  customer_id : String
  quantity : ℚ
  post_day : ℤ
  start_delivery_day : ℤ
  end_delivery_day : ℤ
  remaining_quantity : ℚ
deriving Repr, DecidableEq

/-- Movement dictionary produced by `_create_movement`.  -/
structure Movement where
  connection_id : String
  quantity : ℚ
deriving Repr, DecidableEq

/-- MovementOpportunity dataclass from advance_planner.py.  -/
structure MovementOpportunity where
  score : ℚ
  source_id : String
  destination_id : String
  quantity : ℚ
  connection : Connection
deriving Repr, DecidableEq

/-- The AdvancedPlanner's construction data: the facilities dict (key list
plus lookup), the connections_map (keyed by (source_id, destination_id) of
each connection, kept here as the list of entries in insertion order) and
valid_connections (source → destination → connection id).  -/
structure AdvancedPlanner where
  facIds : List String
  facilities : String → Facility
  connections : List Connection
  valid_connections : String → String → String

/-- self.max_fill_ratio = 0.88.  -/
def max_fill_ratio : ℚ := 0.88

/-- self.min_fill_ratio = 0.15.  -/
def min_fill_ratio : ℚ := 0.15

/-- self.min_movement = 75.0.  -/
def min_movement : ℚ := 75

/-- self.max_movements_per_day = 3.  -/
def max_movements_per_day : ℕ := 3

/-- List filtering by a decidable predicate (Python list comprehensions and
`continue`-guarded loops); `List.filter` with the proposition kept as such.  -/
def filterP {α : Type} (p : α → Prop) [DecidablePred p] : List α → List α
  | [] => []
  | x :: xs => if p x then x :: filterP p xs else filterP p xs

/-- Association-list lookup (Python dict access; keys are written once).  -/
def alookup {κ β : Type} [DecidableEq κ] : List (κ × β) → κ → Option β
  | [], _ => none
  | p :: ps, k => if p.1 = k then some p.2 else alookup ps k

/-- source_to_dest built in `_cache_network_structure`: for each
(source, dest) key of connections_map, dest is appended to source's list.  -/
def sourceToDest (P : AdvancedPlanner) (s : String) : List String :=
  (filterP (fun c => c.source_id = s) P.connections).map (fun c => c.destination_id)

/-- dest_to_source built in `_cache_network_structure`.  -/
def destToSource (P : AdvancedPlanner) (d : String) : List String :=
  (filterP (fun c => c.destination_id = d) P.connections).map (fun c => c.source_id)

/-- connections_map.get((s, d)).  -/
def connGet (P : AdvancedPlanner) (s d : String) : Option Connection :=
  (filterP (fun c => c.source_id = s ∧ c.destination_id = d) P.connections).head?

/-- The facilities_delta defaultdict, fresh at the start of create_movements.  -/
def zeroDelta : String → ℚ := fun _ => 0

/-- One `facilities_delta[fid] += amount` update.  -/
def updateDelta (delta : String → ℚ) (fid : String) (amount : ℚ) : String → ℚ :=
  fun x => if x = fid then delta x + amount else delta x

/-- The two delta updates performed when a movement is committed:
`facilities_delta[source] -= q` then `facilities_delta[dest] += q`.  -/
def commitDelta (delta : String → ℚ) (o : MovementOpportunity) : String → ℚ :=
  updateDelta (updateDelta delta o.source_id (-o.quantity)) o.destination_id o.quantity

/-- The node universe of one BFS run: the start node and every destination of
a connection (the only nodes that can ever be enqueued).  Used as fuel.  -/
def nodeUniverse (P : AdvancedPlanner) (start : String) : List String :=
  (start :: P.connections.map (fun c => c.destination_id)).dedup

/-- The inner loop of `bfs`: walk the neighbour list, keep the not-yet-seen
nodes in order (they are appended to the queue) and mark them seen.  -/
def addNew : List String → List String → List String × List String
  | [], seen => ([], seen)
  | x :: xs, seen =>
    if x ∈ seen then addNew xs seen
    else
      let r := addNew xs (x :: seen)
      (x :: r.1, r.2)

/-- The `while queue:` loop of `bfs` inside `_calculate_path_distances`:
pop the front, record its distance, enqueue unseen neighbours at dist+1.
Fuel bounds the number of iterations; `bfs` supplies enough of it.  -/
def bfsAux (P : AdvancedPlanner) :
    ℕ → List (String × ℕ) → List String → List (String × ℕ) → List (String × ℕ)
  | 0, _, _, dists => dists
  | _ + 1, [], _, dists => dists
  | fuel + 1, (node, dist) :: rest, seen, dists =>
    let r := addNew (sourceToDest P node) seen
    bfsAux P fuel (rest ++ r.1.map (fun x => (x, dist + 1))) r.2 (dists ++ [(node, dist)])

/-- One `bfs(start)` call: distances from `start`, keyed by reached node.  -/
def bfs (P : AdvancedPlanner) (start : String) : List (String × ℕ) :=
  bfsAux P (nodeUniverse P start).length [(start, 0)] [start] []

/-- `_calculate_path_distances`: run bfs from every facility; the shared
dict keyed (start, node) is the disjoint union of the per-start results.  -/
def calculate_path_distances (P : AdvancedPlanner) : List ((String × String) × ℕ) :=
  (P.facIds.map (fun s => (bfs P s).map (fun p => ((s, p.1), p.2)))).flatten

/-- storage_facilities from `_cache_network_structure`: more than two
outgoing destinations and capacity at least 400.  -/
def storage_facilities (P : AdvancedPlanner) : List String :=
  filterP (fun fid =>
    2 < (sourceToDest P fid).length ∧ (400 : ℚ) ≤ (P.facilities fid).capacity) P.facIds

/-- `_calculate_demand_efficiency`: minimum recorded hop distance from any
storage facility to the demand's customer; 0.0 when none is recorded.  -/
def calculate_demand_efficiency (P : AdvancedPlanner) (demand : Demand) : ℚ :=
  let ds := (storage_facilities P).filterMap
    (fun s => alookup (calculate_path_distances P) (s, demand.customer_id))
  match ds.min? with
  | none => 0
  | some m => 1 / ((m : ℚ) + 1)

/-- The combined priority score of one demand in `_prioritize_demands`.  -/
def demandScore (P : AdvancedPlanner) (demand : Demand) (current_day : ℤ) : ℚ :=
  let days_left := demand.end_delivery_day - current_day
  let urgency : ℚ := if days_left ≤ 0 then 1 else 1 / ((days_left : ℚ) + 1)
  let efficiency := calculate_demand_efficiency P demand
  let progress : ℚ := 1 - demand.remaining_quantity / demand.quantity
  let size_score : ℚ := min 1 (demand.remaining_quantity / 500)
  urgency * 0.4 + efficiency * 0.3 + progress * 0.2 + size_score * 0.1

/-- `_prioritize_demands`: drop demands with remaining_quantity ≤ 0, sort the
rest descending by score.  The Python sorts (score, id(demand), demand)
tuples with reverse=True; ties on score are broken by object identity, which
no pure model can reproduce, so ties here keep list order (stable).  -/
def prioritize_demands (P : AdvancedPlanner) (demands : List Demand) (current_day : ℤ) :
    List Demand :=
  (filterP (fun d => 0 < d.remaining_quantity) demands).insertionSort
    (fun a b => demandScore P b current_day ≤ demandScore P a current_day)

/-- `_score_opportunity` (self is only used for its constants).  -/
def score_opportunity (source destination : Facility) (connection : Connection)
    (quantity source_effective dest_effective : ℚ) : ℚ :=
  let m := calculate_metrics connection quantity
  let efficiency_score := quantity / (m.1 + m.2 + 1)
  let current_src_util := source_effective / source.capacity
  let current_dst_util := dest_effective / destination.capacity
  let new_src_util := (source_effective - quantity) / source.capacity
  let new_dst_util := (dest_effective + quantity) / destination.capacity
  let utilization_score :=
    |0.5 - current_src_util| - |0.5 - new_src_util| +
      (|0.5 - current_dst_util| - |0.5 - new_dst_util|)
  let lead_time_score := 1 / (1 + (connection.lead_time : ℚ))
  let quantity_score := min 1 (quantity / connection.max_capacity)
  efficiency_score * 0.3 + utilization_score * 0.3 +
    lead_time_score * 0.2 + quantity_score * 0.2

/-- `_generate_opportunities_for_demand`.  -/
def generate_opportunities_for_demand (P : AdvancedPlanner) (demand : Demand)
    (facilities_delta : String → ℚ) : List MovementOpportunity :=
  (destToSource P demand.customer_id).filterMap (fun source_id =>
    let source := P.facilities source_id
    let source_effective := source.current_level + facilities_delta source_id
    let dest_effective := (P.facilities demand.customer_id).current_level +
      facilities_delta demand.customer_id
    match connGet P source_id demand.customer_id with
    | none => none
    | some connection =>
      let safe_quantity :=
        min (min (min demand.remaining_quantity (source_effective * max_fill_ratio))
          (connection.max_capacity * max_fill_ratio))
          ((P.facilities demand.customer_id).capacity * max_fill_ratio - dest_effective)
      if safe_quantity < min_movement then none
      else some ⟨score_opportunity source (P.facilities demand.customer_id) connection
          safe_quantity source_effective dest_effective,
        source_id, demand.customer_id, safe_quantity, connection⟩)

/-- `_validate_movement`.  -/
def validate_movement (P : AdvancedPlanner) (o : MovementOpportunity)
    (facilities_delta : String → ℚ) : Bool :=
  let source := P.facilities o.source_id
  let destination := P.facilities o.destination_id
  let source_effective := source.current_level + facilities_delta o.source_id
  let dest_effective := destination.current_level + facilities_delta o.destination_id
  if source_effective - o.quantity < source.capacity * min_fill_ratio then false
  else if destination.capacity * max_fill_ratio < dest_effective + o.quantity then false
  else true

/-- `_create_movement`.  -/
def create_movement (P : AdvancedPlanner) (o : MovementOpportunity) : Movement :=
  ⟨P.valid_connections o.source_id o.destination_id, o.quantity⟩

/-- The `while opportunities and movement_count < self.max_movements_per_day`
select loop of `create_movements`, returning the opportunities committed, in
order.  Popped opportunities whose (source, destination) pair was already used
are skipped; otherwise they are re-validated, and on commit the delta is
applied and the remaining list is filtered by `_validate_movement`.  -/
def selectLoop (P : AdvancedPlanner) (opps : List MovementOpportunity) (count : ℕ)
    (processed : List (String × String)) (delta : String → ℚ) :
    List MovementOpportunity :=
  match opps with
  | [] => []
  | o :: rest =>
    if max_movements_per_day ≤ count then []
    else if (o.source_id, o.destination_id) ∈ processed then
      selectLoop P rest count processed delta
    else if validate_movement P o delta then
      o :: selectLoop P (filterP (fun opp => validate_movement P opp (commitDelta delta o) = true) rest)
        (count + 1) ((o.source_id, o.destination_id) :: processed) (commitDelta delta o)
    else
      selectLoop P rest count processed delta
termination_by opps.length
decreasing_by
  · simp
  · have h : ∀ (l : List MovementOpportunity),
        (filterP (fun opp => validate_movement P opp (commitDelta delta o) = true) l).length ≤
          l.length := by
      intro l
      induction l with
      | nil => simp [filterP]
      | cons x xs ih => simp only [filterP]; split <;> simp <;> omega
    exact Nat.lt_succ_of_le (h rest)
  · simp

/-- The pooled opportunity list of one `create_movements` call: opportunities
are generated per prioritized demand against the still-zero delta dict.  -/
def opportunityPool (P : AdvancedPlanner) (current_day : ℤ)
    (active_demands : List Demand) : List MovementOpportunity :=
  ((filterP (fun d => 0 < d.remaining_quantity)
      (prioritize_demands P active_demands current_day)).map
    (fun d => generate_opportunities_for_demand P d zeroDelta)).flatten

/-- `opportunities.sort(reverse=True)` with the reversed `__lt__`: a stable
sort that leaves the LOWEST score first (see the header note).  -/
def sortOpportunities (pool : List MovementOpportunity) : List MovementOpportunity :=
  pool.insertionSort (fun a b => a.score ≤ b.score)

/-- The opportunities committed by one `create_movements` call (its returned
movement list is their image under `create_movement`).  -/
def committedOpps (P : AdvancedPlanner) (current_day : ℤ)
    (active_demands : List Demand) : List MovementOpportunity :=
  selectLoop P (sortOpportunities (opportunityPool P current_day active_demands)) 0 [] zeroDelta

/-- `create_movements`.  -/
def create_movements (P : AdvancedPlanner) (current_day : ℤ)
    (active_demands : List Demand) : List Movement :=
  if current_day = 0 ∨ active_demands = [] then []
  else (committedOpps P current_day active_demands).map (create_movement P)

/-- The mutable state of SupplyChainOptimizer that one round touches.  -/
structure SupplyChainState where
  current_day : ℤ
  active_demands : List Demand
  facilities : String → Facility
  connections : List Connection

/-- One movement application in `_update_facility_levels`: `next(...)` over
connections_map.values() raises when no connection has the id (modelled as
none); otherwise the source level is decremented and the destination level
incremented.  -/
def apply_movement (connections : List Connection) (fac : String → Facility)
    (m : Movement) : Option (String → Facility) :=
  match (filterP (fun c => c.id = m.connection_id) connections).head? with
  | none => none
  | some c =>
    let f1 := fun fid => if fid = c.source_id then
        { fac fid with current_level := (fac fid).current_level - m.quantity }
      else fac fid
    some (fun fid => if fid = c.destination_id then
        { f1 fid with current_level := (f1 fid).current_level + m.quantity }
      else f1 fid)

/-- `_update_facility_levels` over the whole movement list.  -/
def update_facility_levels (connections : List Connection) (fac : String → Facility) :
    List Movement → Option (String → Facility)
  | [] => some fac
  | m :: ms =>
    match apply_movement connections fac m with
    | none => none
    | some fac' => update_facility_levels connections fac' ms

/-- `_cleanup_completed_demands`: keep a demand only while its
remaining_quantity is positive and its window has not closed.  -/
def cleanup_completed_demands (current_day : ℤ) (demands : List Demand) : List Demand :=
  filterP (fun d => 0 < d.remaining_quantity ∧ current_day ≤ d.end_delivery_day) demands

/-- The response-application sequence of the run loop:
`_process_round_result` (day counter += 1, extend active_demands), then
`_update_facility_levels`, then `_cleanup_completed_demands`.  -/
def process_round (s : SupplyChainState) (new_demands : List Demand)
    (movements : List Movement) : Option SupplyChainState :=
  let day' := s.current_day + 1
  let demands' := s.active_demands ++ new_demands
  match update_facility_levels s.connections s.facilities movements with
  | none => none
  | some fac' =>
    some { s with current_day := day',
                  active_demands := cleanup_completed_demands day' demands',
                  facilities := fac' }

/-- Reachability in exactly `n` hops along an adjacency function; the
specification-side notion of hop distance for the Path Index.  -/
inductive ReachIn (adj : String → List String) : String → String → ℕ → Prop
  | refl (u : String) : ReachIn adj u u 0
  | step {u v w : String} {n : ℕ} : v ∈ adj u → ReachIn adj v w n → ReachIn adj u w (n + 1)

/-- Reachability along an adjacency function.  -/
def Reachable (adj : String → List String) (u v : String) : Prop :=
  ∃ n, ReachIn adj u v n

/-- The net effect of one committed opportunity on one facility's delta.  -/
def contribution (o : MovementOpportunity) (fid : String) : ℚ :=
  (if fid = o.destination_id then o.quantity else 0) -
    (if fid = o.source_id then o.quantity else 0)

/-- The accumulated delta of a committed prefix at one facility.  -/
def netDelta (os : List MovementOpportunity) (fid : String) : ℚ :=
  (os.map (fun o => contribution o fid)).sum

/-- Total quantity drawn from a facility by a committed list.  -/
def drawnFrom (os : List MovementOpportunity) (fid : String) : ℚ :=
  ((filterP (fun o => o.source_id = fid) os).map (fun o => o.quantity)).sum

/-- Modelled from the spec: the generation-phase safe-quantity bounds of
§4.3 applied to an opportunity's quantity at the current effective levels
(the source-side bound `quantity ≤ source_effective × MAX_FILL_RATIO` and the
destination-side bound `quantity ≤ destination capacity × MAX_FILL_RATIO −
destination_effective`).  This is the claim C5 reading of "the same
capacity-margin rule as generation", to be compared with
`validate_movement`.  -/
def genRuleAccepts (P : AdvancedPlanner) (o : MovementOpportunity)
    (delta : String → ℚ) : Prop :=
  o.quantity ≤ ((P.facilities o.source_id).current_level + delta o.source_id) * max_fill_ratio ∧
  o.quantity ≤ (P.facilities o.destination_id).capacity * max_fill_ratio -
    ((P.facilities o.destination_id).current_level + delta o.destination_id)

/-!  Concrete inputs.  `scenarioP` is a four-facility network used to
exercise one full `create_movements` run: a large source S feeding a midsize
facility F, and two customers D1, D2 fed from F.  `c4P` is the exact §8
scenario of the spec.  `c5P`/`c5opp` is a single validation call.  -/

/-- Facilities of the run scenario.  -/
def scFac : String → Facility := fun fid =>
  if fid = "S" then ⟨"S", 2000, 2000⟩
  else if fid = "F" then ⟨"F", 1000, 200⟩
  else if fid = "D1" then ⟨"D1", 1000, 0⟩
  else if fid = "D2" then ⟨"D2", 1000, 0⟩
  else ⟨fid, 0, 0⟩

/-- Connection S→F: long, slow, high-capacity.  -/
def cSF : Connection := ⟨"cSF", "S", "F", "PIPELINE", 9, 100000, 1000, 1, 0.5⟩

/-- Connection F→D1.  -/
def cF1 : Connection := ⟨"cF1", "F", "D1", "TRUCK", 0, 200, 1, 1, 0.5⟩

/-- Connection F→D2.  -/
def cF2 : Connection := ⟨"cF2", "F", "D2", "TRUCK", 0, 300, 1, 1, 0.5⟩

/-- The run-scenario planner.  -/
def scenarioP : AdvancedPlanner :=
  ⟨["S", "F", "D1", "D2"], scFac, [cSF, cF1, cF2],
    fun s d => if s = "S" then "cSF" else if d = "D1" then "cF1" else "cF2"⟩

/-- Demand of 800 at F.  -/
def dF : Demand := ⟨"dF", "F", 800, 0, 1, 5, 800⟩

/-- Demand of 150 at D1.  -/
def d1 : Demand := ⟨"d1", "D1", 150, 0, 1, 5, 150⟩

/-- Demand of 150 at D2 (window one day longer, to keep scores distinct).  -/
def d2 : Demand := ⟨"d2", "D2", 150, 0, 1, 6, 150⟩

/-- The active demand list of the run scenario.  -/
def scenarioDemands : List Demand := [dF, d1, d2]

/-- Spec §8 scenario: facility A, level 100, capacity 200.  -/
def c4P : AdvancedPlanner :=
  ⟨["A", "B"],
    fun fid => if fid = "A" then ⟨"A", 200, 100⟩
      else if fid = "B" then ⟨"B", 150, 0⟩ else ⟨fid, 0, 0⟩,
    [⟨"cAB", "A", "B", "TRUCK", 1, 80, 10, 1, 0.5⟩],
    fun _ _ => "cAB"⟩

/-- Spec §8 scenario demand: quantity 60 at B, window [1, 5], posted day 0.  -/
def dB : Demand := ⟨"dB", "B", 60, 0, 1, 5, 60⟩

/-- Planner for the C5 validation counterexample: a source holding 100 of
1000 capacity and an empty destination of capacity 1000.  -/
def c5P : AdvancedPlanner :=
  ⟨["Src", "Dst"],
    fun fid => if fid = "Src" then ⟨"Src", 1000, 100⟩
      else if fid = "Dst" then ⟨"Dst", 1000, 0⟩ else ⟨fid, 0, 0⟩,
    [⟨"cSD", "Src", "Dst", "TRUCK", 1, 500, 1, 1, 0.5⟩],
    fun _ _ => "cSD"⟩

/-- An 80-unit opportunity over that connection.  -/
def c5opp : MovementOpportunity :=
  ⟨0, "Src", "Dst", 80, ⟨"cSD", "Src", "Dst", "TRUCK", 1, 500, 1, 1, 0.5⟩⟩

/-- A driver state before one round: day 3, three active demands.  -/
def c7State : SupplyChainState :=
  ⟨3, [⟨"k", "X", 100, 0, 1, 9, 40⟩, ⟨"z", "X", 100, 0, 1, 9, 0⟩,
       ⟨"e", "X", 100, 0, 1, 3, 50⟩],
    fun fid => ⟨fid, 100, 50⟩, []⟩

/-- A demand posted by the round response.  -/
def c7NewDemand : Demand := ⟨"n", "X", 30, 4, 5, 8, 30⟩

/-- The opportunity S→F generated in the run scenario (exact score).  -/
def oSF : MovementOpportunity := ⟨634695621/6375006250, "S", "F", 680, cSF⟩

/-- The opportunity F→D1 generated in the run scenario (exact score).  -/
def oF1 : MovementOpportunity := ⟨1241/2260, "F", "D1", 150, cF1⟩

/-- The opportunity F→D2 generated in the run scenario (exact score).  -/
def oF2 : MovementOpportunity := ⟨282/565, "F", "D2", 150, cF2⟩

/-- The internal invariant of one `bfs(start)` run, tying a queue/seen/dists
state to true hop distances (`ReachIn` over source_to_dest adjacency).  -/
structure BfsInv (P : AdvancedPlanner) (start : String) (q : List (String × ℕ))
    (seen : List String) (dists : List (String × ℕ)) : Prop where
  start_seen : start ∈ seen
  queue_sound : ∀ p ∈ q, ReachIn (sourceToDest P) start p.1 p.2 ∧ p.1 ∈ seen
  seen_covered : ∀ w ∈ seen, (∃ d, (w, d) ∈ dists) ∨ ∃ d, (w, d) ∈ q
  keys_nodup : (q.map Prod.fst ++ dists.map Prod.fst).Nodup
  queue_window : q.Pairwise (fun a b => a.2 ≤ b.2 ∧ b.2 ≤ a.2 + 1)
  dists_sound : ∀ w d, (w, d) ∈ dists → ReachIn (sourceToDest P) start w d
  dists_min : ∀ w d, (w, d) ∈ dists →
    ∀ m, ReachIn (sourceToDest P) start w m → d ≤ m
  queue_min : ∀ p ∈ q, ∀ m, ReachIn (sourceToDest P) start p.1 m → p.2 ≤ m
  recorded_closed : ∀ w ∈ dists.map Prod.fst, ∀ y ∈ sourceToDest P w, y ∈ seen
  dists_seen : ∀ w ∈ dists.map Prod.fst, w ∈ seen
  seen_sub : ∀ w ∈ seen, w ∈ nodeUniverse P start

/-- Number of loop iterations still possible: unseen universe nodes plus the
queue length.  Strictly decreases at every `bfsAux` step.  -/
def bfsMeasure (P : AdvancedPlanner) (start : String) (q : List (String × ℕ))
    (seen : List String) : ℕ :=
  (filterP (fun y => y ∉ seen) (nodeUniverse P start)).length + q.length

/-!  Helper lemmas.  -/

lemma mem_filterP {α : Type} {p : α → Prop} [DecidablePred p] {a : α} :
    ∀ {l : List α}, a ∈ filterP p l ↔ a ∈ l ∧ p a
  | [] => by simp [filterP]
  | x :: xs => by
    by_cases hx : p x
    · simp only [filterP, if_pos hx, List.mem_cons, mem_filterP (l := xs)]
      constructor
      · rintro (rfl | ⟨h1, h2⟩)
        · exact ⟨Or.inl rfl, hx⟩
        · exact ⟨Or.inr h1, h2⟩
      · rintro ⟨rfl | h1, h2⟩
        · exact Or.inl rfl
        · exact Or.inr ⟨h1, h2⟩
    · simp only [filterP, if_neg hx, List.mem_cons, mem_filterP (l := xs)]
      constructor
      · rintro ⟨h1, h2⟩; exact ⟨Or.inr h1, h2⟩
      · rintro ⟨rfl | h1, h2⟩
        · exact absurd h2 hx
        · exact ⟨h1, h2⟩

/-- `_validate_movement` accepts exactly the source min-fill margin together
with the destination max-fill margin.  -/
lemma validate_iff (P : AdvancedPlanner) (o : MovementOpportunity) (delta : String → ℚ) :
    validate_movement P o delta = true ↔
      (P.facilities o.source_id).capacity * min_fill_ratio ≤
          (P.facilities o.source_id).current_level + delta o.source_id - o.quantity ∧
        (P.facilities o.destination_id).current_level + delta o.destination_id + o.quantity ≤
          (P.facilities o.destination_id).capacity * max_fill_ratio := by
  dsimp only [validate_movement]
  split_ifs with h1 h2
  · simp only [Bool.false_eq_true, false_iff]
    rintro ⟨hs, _⟩
    exact absurd h1 (not_lt.mpr hs)
  · simp only [Bool.false_eq_true, false_iff]
    rintro ⟨_, hd⟩
    exact absurd h2 (not_lt.mpr hd)
  · simp only [true_iff]
    exact ⟨not_lt.mp h1, not_lt.mp h2⟩

lemma commitDelta_apply (delta : String → ℚ) (o : MovementOpportunity) (x : String) :
    commitDelta delta o x = delta x + contribution o x := by
  unfold commitDelta updateDelta contribution
  split_ifs <;> ring

lemma netDelta_nil (fid : String) : netDelta [] fid = 0 := rfl

lemma netDelta_cons (o : MovementOpportunity) (t : List MovementOpportunity) (fid : String) :
    netDelta (o :: t) fid = contribution o fid + netDelta t fid := by
  simp [netDelta]

lemma selectLoop_subset (P : AdvancedPlanner) (opps : List MovementOpportunity)
    (count : ℕ) (processed : List (String × String)) (delta : String → ℚ) :
    ∀ o ∈ selectLoop P opps count processed delta, o ∈ opps := by
  induction opps, count, processed, delta using selectLoop.induct P with
  | case1 count processed delta => simp [selectLoop]
  | case2 count processed delta o rest h =>
    intro x hx
    simp only [selectLoop, if_pos h] at hx
    exact absurd hx (List.not_mem_nil x)
  | case3 count processed delta o rest h1 h2 ih =>
    intro x hx
    rw [selectLoop, if_neg h1, if_pos h2] at hx
    exact List.mem_cons_of_mem _ (ih x hx)
  | case4 count processed delta o rest h1 h2 h3 ih =>
    intro x hx
    rw [selectLoop, if_neg h1, if_neg h2, if_pos h3] at hx
    rcases List.mem_cons.mp hx with rfl | hx
    · exact List.mem_cons_self _ _
    · exact List.mem_cons_of_mem _ ((mem_filterP.mp (ih x hx)).1)
  | case5 count processed delta o rest h1 h2 h3 ih =>
    intro x hx
    rw [selectLoop, if_neg h1, if_neg h2, if_neg h3] at hx
    exact List.mem_cons_of_mem _ (ih x hx)

lemma selectLoop_not_processed (P : AdvancedPlanner) (opps : List MovementOpportunity)
    (count : ℕ) (processed : List (String × String)) (delta : String → ℚ) :
    ∀ o ∈ selectLoop P opps count processed delta,
      (o.source_id, o.destination_id) ∉ processed := by
  induction opps, count, processed, delta using selectLoop.induct P with
  | case1 count processed delta => simp [selectLoop]
  | case2 count processed delta o rest h =>
    intro x hx
    simp only [selectLoop, if_pos h] at hx
    exact absurd hx (List.not_mem_nil x)
  | case3 count processed delta o rest h1 h2 ih =>
    intro x hx
    rw [selectLoop, if_neg h1, if_pos h2] at hx
    exact ih x hx
  | case4 count processed delta o rest h1 h2 h3 ih =>
    intro x hx
    rw [selectLoop, if_neg h1, if_neg h2, if_pos h3] at hx
    rcases List.mem_cons.mp hx with rfl | hx
    · exact h2
    · intro hmem
      exact ih x hx (List.mem_cons_of_mem _ hmem)
  | case5 count processed delta o rest h1 h2 h3 ih =>
    intro x hx
    rw [selectLoop, if_neg h1, if_neg h2, if_neg h3] at hx
    exact ih x hx

lemma selectLoop_pairwise (P : AdvancedPlanner) (opps : List MovementOpportunity)
    (count : ℕ) (processed : List (String × String)) (delta : String → ℚ) :
    (selectLoop P opps count processed delta).Pairwise
      (fun a b => ¬(a.source_id = b.source_id ∧ a.destination_id = b.destination_id)) := by
  induction opps, count, processed, delta using selectLoop.induct P with
  | case1 count processed delta => simp [selectLoop]
  | case2 count processed delta o rest h =>
    simp [selectLoop, if_pos h]
  | case3 count processed delta o rest h1 h2 ih =>
    rw [selectLoop, if_neg h1, if_pos h2]
    exact ih
  | case4 count processed delta o rest h1 h2 h3 ih =>
    rw [selectLoop, if_neg h1, if_neg h2, if_pos h3]
    refine List.pairwise_cons.mpr ⟨?_, ih⟩
    intro b hb hcontra
    have hnp := selectLoop_not_processed P _ _ _ _ b hb
    apply hnp
    rw [← hcontra.1, ← hcontra.2]
    exact List.mem_cons_self _ _
  | case5 count processed delta o rest h1 h2 h3 ih =>
    rw [selectLoop, if_neg h1, if_neg h2, if_neg h3]
    exact ih

lemma netDelta_append (a b : List MovementOpportunity) (fid : String) :
    netDelta (a ++ b) fid = netDelta a fid + netDelta b fid := by
  simp [netDelta]

lemma drawnFrom_nil (fid : String) : drawnFrom [] fid = 0 := rfl

lemma drawnFrom_cons (o : MovementOpportunity) (t : List MovementOpportunity) (fid : String) :
    drawnFrom (o :: t) fid =
      (if o.source_id = fid then o.quantity else 0) + drawnFrom t fid := by
  by_cases h : o.source_id = fid
  · simp only [drawnFrom, filterP, if_pos h, List.map_cons, List.sum_cons]
  · simp only [drawnFrom, filterP, if_neg h, zero_add]

lemma mem_sortOpportunities {o : MovementOpportunity} {l : List MovementOpportunity} :
    o ∈ sortOpportunities l ↔ o ∈ l :=
  (List.perm_insertionSort _ l).mem_iff

lemma mem_generate_quantity (P : AdvancedPlanner) (d : Demand) (delta : String → ℚ) :
    ∀ o ∈ generate_opportunities_for_demand P d delta, min_movement ≤ o.quantity := by
  intro o ho
  unfold generate_opportunities_for_demand at ho
  rcases List.mem_filterMap.mp ho with ⟨sid, _, hf⟩
  dsimp only at hf
  split at hf
  · simp at hf
  · split at hf
    · simp at hf
    · next hns =>
      cases hf
      exact not_lt.mp hns

lemma mem_pool_quantity (P : AdvancedPlanner) (day : ℤ) (ds : List Demand) :
    ∀ o ∈ opportunityPool P day ds, min_movement ≤ o.quantity := by
  intro o ho
  unfold opportunityPool at ho
  rcases List.mem_flatten.mp ho with ⟨l, hl, hol⟩
  rcases List.mem_map.mp hl with ⟨d, _, rfl⟩
  exact mem_generate_quantity P d zeroDelta o hol

lemma mem_committedOpps_pool (P : AdvancedPlanner) (day : ℤ) (ds : List Demand) :
    ∀ o ∈ committedOpps P day ds, o ∈ opportunityPool P day ds := by
  intro o ho
  exact mem_sortOpportunities.mp (selectLoop_subset P _ 0 [] zeroDelta o ho)

lemma selectLoop_dest_bound (P : AdvancedPlanner) (opps : List MovementOpportunity)
    (count : ℕ) (processed : List (String × String)) (delta : String → ℚ)
    (hq : ∀ o ∈ opps, 0 ≤ o.quantity) :
    ∀ pre x post, selectLoop P opps count processed delta = pre ++ x :: post →
      (P.facilities x.destination_id).current_level + delta x.destination_id +
          netDelta (pre ++ [x]) x.destination_id ≤
        (P.facilities x.destination_id).capacity * max_fill_ratio := by
  induction opps, count, processed, delta using selectLoop.induct P with
  | case1 count processed delta =>
    intro pre x post h
    rw [selectLoop] at h
    exact absurd (List.append_eq_nil.mp h.symm).2 (List.cons_ne_nil x post)
  | case2 count processed delta o rest h =>
    intro pre x post hh
    rw [selectLoop, if_pos h] at hh
    exact absurd (List.append_eq_nil.mp hh.symm).2 (List.cons_ne_nil x post)
  | case3 count processed delta o rest h1 h2 ih =>
    intro pre x post hh
    rw [selectLoop, if_neg h1, if_pos h2] at hh
    exact ih (fun o' ho' => hq o' (List.mem_cons_of_mem _ ho')) pre x post hh
  | case4 count processed delta o rest h1 h2 h3 ih =>
    intro pre x post hh
    rw [selectLoop, if_neg h1, if_neg h2, if_pos h3] at hh
    have hval := (validate_iff P o delta).mp h3
    cases pre with
    | nil =>
      rw [List.nil_append] at hh
      injection hh with hox htail
      subst hox
      simp only [List.nil_append, netDelta_cons, netDelta_nil, add_zero]
      have hc : contribution o o.destination_id =
          o.quantity - (if o.destination_id = o.source_id then o.quantity else 0) := by
        simp [contribution]
      rw [hc]
      by_cases hsd : o.destination_id = o.source_id
      · rw [if_pos hsd]
        have h0 : (0:ℚ) ≤ o.quantity := hq o (List.mem_cons_self o rest)
        have h2 := hval.2
        linarith
      · rw [if_neg hsd]
        have h2 := hval.2
        linarith
    | cons o' pre' =>
      rw [List.cons_append] at hh
      injection hh with hoo htail
      have hq' : ∀ y ∈ filterP
          (fun opp => validate_movement P opp (commitDelta delta o) = true) rest,
          0 ≤ y.quantity := fun y hy =>
        hq y (List.mem_cons_of_mem _ (mem_filterP.mp hy).1)
      have hbound := ih hq' pre' x post htail
      rw [commitDelta_apply] at hbound
      subst hoo
      calc (P.facilities x.destination_id).current_level + delta x.destination_id +
            netDelta ((o :: pre') ++ [x]) x.destination_id
          = (P.facilities x.destination_id).current_level +
            (delta x.destination_id + contribution o x.destination_id) +
            netDelta (pre' ++ [x]) x.destination_id := by
            rw [List.cons_append, netDelta_cons]; ring
        _ ≤ (P.facilities x.destination_id).capacity * max_fill_ratio := hbound
  | case5 count processed delta o rest h1 h2 h3 ih =>
    intro pre x post hh
    rw [selectLoop, if_neg h1, if_neg h2, if_neg h3] at hh
    exact ih (fun o' ho' => hq o' (List.mem_cons_of_mem _ ho')) pre x post hh

lemma selectLoop_drawn (P : AdvancedPlanner) (opps : List MovementOpportunity)
    (count : ℕ) (processed : List (String × String)) (delta : String → ℚ) (fid : String)
    (hnd : ∀ o ∈ selectLoop P opps count processed delta, o.destination_id ≠ fid) :
    drawnFrom (selectLoop P opps count processed delta) fid = 0 ∨
      drawnFrom (selectLoop P opps count processed delta) fid ≤
        (P.facilities fid).current_level + delta fid -
          (P.facilities fid).capacity * min_fill_ratio := by
  induction opps, count, processed, delta using selectLoop.induct P with
  | case1 count processed delta =>
    rw [selectLoop]
    exact Or.inl (drawnFrom_nil fid)
  | case2 count processed delta o rest h =>
    rw [selectLoop, if_pos h] at hnd ⊢
    exact Or.inl (drawnFrom_nil fid)
  | case3 count processed delta o rest h1 h2 ih =>
    rw [selectLoop, if_neg h1, if_pos h2] at hnd ⊢
    exact ih hnd
  | case4 count processed delta o rest h1 h2 h3 ih =>
    rw [selectLoop, if_neg h1, if_neg h2, if_pos h3] at hnd ⊢
    have hval := (validate_iff P o delta).mp h3
    have hdo : o.destination_id ≠ fid := hnd o (List.mem_cons_self _ _)
    have hnd' := fun o' ho' => hnd o' (List.mem_cons_of_mem _ ho')
    rw [drawnFrom_cons]
    by_cases hsrc : o.source_id = fid
    · rw [if_pos hsrc]
      have hdelta : commitDelta delta o fid = delta fid - o.quantity := by
        rw [commitDelta_apply]
        unfold contribution
        rw [if_neg (fun h' => hdo h'.symm), if_pos hsrc.symm]
        ring
      rcases ih hnd' with h0 | hle
      · rw [h0]
        right
        have := hval.1
        rw [hsrc] at this
        linarith
      · right
        rw [hdelta] at hle
        linarith
    · rw [if_neg hsrc, zero_add]
      have hdelta : commitDelta delta o fid = delta fid := by
        rw [commitDelta_apply]
        unfold contribution
        rw [if_neg (fun h' => hdo h'.symm), if_neg (fun h' => hsrc h'.symm)]
        ring
      rcases ih hnd' with h0 | hle
      · exact Or.inl h0
      · right
        rw [hdelta] at hle
        exact hle
  | case5 count processed delta o rest h1 h2 h3 ih =>
    rw [selectLoop, if_neg h1, if_neg h2, if_neg h3] at hnd ⊢
    exact ih hnd

set_option maxHeartbeats 12000000 in
/-- Evaluation of the full planning pass on the run scenario: the select loop
commits S→F (680), then F→D2 (150), then F→D1 (150), in this order.  -/
lemma scenario_committed_eq :
    committedOpps scenarioP 1 scenarioDemands = [oSF, oF2, oF1] := by
  norm_num +decide [committedOpps, selectLoop, sortOpportunities, opportunityPool,
    prioritize_demands, demandScore, calculate_demand_efficiency, storage_facilities,
    generate_opportunities_for_demand, destToSource, sourceToDest, connGet, filterP,
    scenarioP, scFac, cSF, cF1, cF2, dF, d1, d2, scenarioDemands, zeroDelta,
    max_fill_ratio, min_fill_ratio, min_movement, max_movements_per_day,
    score_opportunity, calculate_metrics, abs_of_nonneg,
    validate_movement, commitDelta, updateDelta, oSF, oF1, oF2,
    List.insertionSort, List.orderedInsert, List.filterMap_cons, List.head?,
    List.flatten]

/-- The movement dictionaries returned for the run scenario.  -/
lemma scenario_movements_eq :
    create_movements scenarioP 1 scenarioDemands =
      [⟨"cSF", 680⟩, ⟨"cF2", 150⟩, ⟨"cF1", 150⟩] := by
  rw [create_movements, if_neg (by simp [scenarioDemands]), scenario_committed_eq]
  simp [create_movement, scenarioP, oSF, oF1, oF2]

/-- C1: the spec says the pooled opportunities are examined highest score
first; on the code, `MovementOpportunity.__lt__` (reversed) combined with
`sort(reverse=True)` leaves the list ascending by score, and `pop(0)` takes
the LOWEST-scoring opportunity.  At the scenario input, the three committed
opportunities come out in strictly increasing score order, so the first
examined opportunity had a smaller score than opportunities still in the
list.  This contradicts the code's own comment "Sort opportunities by score
(highest first)".  -/
theorem c1_select_examines_lowest_score_first :
    committedOpps scenarioP 1 scenarioDemands = [oSF, oF2, oF1] ∧
      oSF.score < oF2.score ∧ oF2.score < oF1.score := by
  refine ⟨scenario_committed_eq, ?_, ?_⟩ <;> norm_num [oSF, oF1, oF2]

/-- C2 (counterexample): in the run scenario the facility F first receives a
committed 680-unit inflow, after which two outflows of 150 each are committed
from it; the total drawn (300) exceeds `current_level × MAX_FILL_RATIO`
(200 × 0.88 = 176), so the claimed per-facility draw bound is false for runs
where the facility is also a destination that day.  -/
theorem c2_counterexample :
    drawnFrom (committedOpps scenarioP 1 scenarioDemands) "F" = 300 ∧
      ¬ drawnFrom (committedOpps scenarioP 1 scenarioDemands) "F" ≤
          (scenarioP.facilities "F").current_level * max_fill_ratio := by
  rw [scenario_committed_eq]
  constructor <;>
    norm_num +decide [drawnFrom, filterP, oSF, oF1, oF2, scenarioP, scFac,
      max_fill_ratio]

/-- C2 (amended): if a facility with `0 ≤ current_level ≤ capacity` is not
the destination of any movement committed that day, then the total quantity
drawn from it by one `create_movements` pass is at most
`current_level × MAX_FILL_RATIO`.  -/
theorem c2_no_overdraw_without_inflow (P : AdvancedPlanner) (day : ℤ)
    (demands : List Demand) (fid : String)
    (hlev0 : 0 ≤ (P.facilities fid).current_level)
    (hlevcap : (P.facilities fid).current_level ≤ (P.facilities fid).capacity)
    (hnd : ∀ o ∈ committedOpps P day demands, o.destination_id ≠ fid) :
    drawnFrom (committedOpps P day demands) fid ≤
      (P.facilities fid).current_level * max_fill_ratio := by
  have hmr : (0:ℚ) < max_fill_ratio := by norm_num [max_fill_ratio]
  rcases selectLoop_drawn P _ 0 [] zeroDelta fid hnd with h0 | hle
  · rw [committedOpps, h0]
    exact mul_nonneg hlev0 hmr.le
  · rw [committedOpps]
    simp only [zeroDelta] at hle
    have h15 : min_fill_ratio = 0.15 := rfl
    have h88 : max_fill_ratio = 0.88 := rfl
    rw [h15] at hle
    rw [h88]
    nlinarith

/-- C2 (witness for the amended claim): the scenario facility S has no
committed inflow that day, and the 680 units drawn from it respect the
0.88 × 2000 bound.  -/
theorem c2_witness :
    drawnFrom (committedOpps scenarioP 1 scenarioDemands) "S" ≤
      (scenarioP.facilities "S").current_level * max_fill_ratio :=
  c2_no_overdraw_without_inflow scenarioP 1 scenarioDemands "S"
    (by norm_num [scenarioP, scFac])
    (by norm_num [scenarioP, scFac])
    (by
      rw [scenario_committed_eq]
      intro o ho
      simp only [List.mem_cons, List.not_mem_nil, or_false] at ho
      rcases ho with rfl | rfl | rfl <;> simp [oSF, oF1, oF2])

/-- C3: every commit is guarded by `_validate_movement`, whose destination
check bounds `dest_effective + quantity` by `capacity × MAX_FILL_RATIO`; so
for every committed movement the destination's projected level (current
level plus the accumulated delta right after that commit) respects the
max-fill bound.  Committed quantities are nonnegative (they are at least
MIN_MOVEMENT), which covers the self-loop case.  -/
theorem c3_destination_projected_level (P : AdvancedPlanner) (day : ℤ)
    (demands : List Demand) (pre : List MovementOpportunity)
    (x : MovementOpportunity) (post : List MovementOpportunity)
    (h : committedOpps P day demands = pre ++ x :: post) :
    (P.facilities x.destination_id).current_level +
        netDelta (pre ++ [x]) x.destination_id ≤
      (P.facilities x.destination_id).capacity * max_fill_ratio := by
  have hq : ∀ o ∈ sortOpportunities (opportunityPool P day demands), 0 ≤ o.quantity := by
    intro o ho
    have h75 := mem_pool_quantity P day demands o (mem_sortOpportunities.mp ho)
    have : (0:ℚ) ≤ min_movement := by norm_num [min_movement]
    linarith
  have := selectLoop_dest_bound P _ 0 [] zeroDelta hq pre x post h
  simpa [zeroDelta] using this

/-- C3 (witness): the S→F commit of the run scenario projects F to
200 + 680 = 880 = 1000 × 0.88.  -/
theorem c3_witness :
    (scenarioP.facilities oSF.destination_id).current_level +
        netDelta ([] ++ [oSF]) oSF.destination_id ≤
      (scenarioP.facilities oSF.destination_id).capacity * max_fill_ratio :=
  c3_destination_projected_level scenarioP 1 scenarioDemands [] oSF [oF2, oF1]
    (by rw [scenario_committed_eq]; rfl)

/-- C5 (counterexample): with a source holding 100 of capacity 1000 and an
80-unit opportunity, the generation-phase bounds accept (80 ≤ 100 × 0.88 and
80 ≤ 880), but `_validate_movement` rejects because its source check is the
MIN-fill margin (100 − 80 < 1000 × 0.15); so re-validation is NOT the same
capacity-margin rule as generation.  -/
theorem c5_counterexample :
    validate_movement c5P c5opp zeroDelta = false ∧ genRuleAccepts c5P c5opp zeroDelta := by
  constructor
  · norm_num +decide [validate_movement, c5P, c5opp, zeroDelta, min_fill_ratio,
      max_fill_ratio]
  · unfold genRuleAccepts
    norm_num +decide [c5P, c5opp, zeroDelta, max_fill_ratio]

/-- C5 (amended): `_validate_movement` accepts exactly when the destination
side satisfies the generation-phase bound (quantity ≤ destination capacity ×
MAX_FILL_RATIO − destination_effective) AND the source side keeps at least
`capacity × MIN_FILL_RATIO` after the draw — a min-fill rule different from
generation's source bound `quantity ≤ source_effective × MAX_FILL_RATIO`.  -/
theorem c5_validation_rule (P : AdvancedPlanner) (o : MovementOpportunity)
    (delta : String → ℚ) :
    validate_movement P o delta = true ↔
      ((P.facilities o.source_id).capacity * min_fill_ratio ≤
          (P.facilities o.source_id).current_level + delta o.source_id - o.quantity ∧
        o.quantity ≤ (P.facilities o.destination_id).capacity * max_fill_ratio -
          ((P.facilities o.destination_id).current_level + delta o.destination_id)) := by
  rw [validate_iff]
  constructor <;> rintro ⟨hs, hd⟩ <;> exact ⟨hs, by linarith⟩

/-- C6: a popped opportunity whose (source, destination) pair is already in
`processed_connections` is skipped, and every commit adds its pair; hence no
two committed movements of one day share an ordered (source, destination)
pair.  -/
theorem c6_one_movement_per_pair (P : AdvancedPlanner) (day : ℤ)
    (demands : List Demand) :
    (committedOpps P day demands).Pairwise
      (fun a b => ¬(a.source_id = b.source_id ∧ a.destination_id = b.destination_id)) :=
  selectLoop_pairwise P _ 0 [] zeroDelta

/-- C7: after one round's response application (day counter incremented, new
demands appended, facility levels updated) the cleanup filter keeps exactly
the demands with positive remaining quantity and an open window, so no
demand with `remaining_quantity ≤ 0` or `end_delivery_day < current_day`
stays active.  -/
theorem c7_demand_removal_law (s : SupplyChainState) (nd : List Demand)
    (mv : List Movement) (s' : SupplyChainState) (d : Demand)
    (h : process_round s nd mv = some s') (hd : d ∈ s'.active_demands) :
    0 < d.remaining_quantity ∧ s'.current_day ≤ d.end_delivery_day := by
  unfold process_round at h
  split at h
  · simp at h
  · cases h
    unfold cleanup_completed_demands at hd
    have := mem_filterP.mp hd
    exact ⟨this.2.1, this.2.2⟩

/-- C7 (witness): the concrete round keeps the 40-unit demand with window
ending day 9 on the new day 4.  -/
theorem c7_witness :
    0 < (⟨"k", "X", 100, 0, 1, 9, 40⟩ : Demand).remaining_quantity ∧
      (SupplyChainState.mk 4
          [⟨"k", "X", 100, 0, 1, 9, 40⟩, ⟨"n", "X", 30, 4, 5, 8, 30⟩]
          (fun fid => ⟨fid, 100, 50⟩) []).current_day ≤
        (⟨"k", "X", 100, 0, 1, 9, 40⟩ : Demand).end_delivery_day :=
  c7_demand_removal_law c7State [c7NewDemand] []
    (SupplyChainState.mk 4
      [⟨"k", "X", 100, 0, 1, 9, 40⟩, ⟨"n", "X", 30, 4, 5, 8, 30⟩]
      (fun fid => ⟨fid, 100, 50⟩) [])
    ⟨"k", "X", 100, 0, 1, 9, 40⟩
    (by
      norm_num [process_round, update_facility_levels, cleanup_completed_demands,
        filterP, c7State, c7NewDemand])
    (List.mem_cons_self _ _)

/-- C9: `_prioritize_demands` drops demands with nonpositive remaining
quantity and returns the rest sorted descending by the combined score
`0.4·urgency + 0.3·efficiency + 0.2·progress + 0.1·size`, with urgency 1 when
the window end is not after the current day and `1/(days_left+1)` otherwise,
progress `1 − remaining/quantity`, and size `min(1, remaining/500)`.  -/
theorem c9_prioritization (P : AdvancedPlanner) (demands : List Demand) (day : ℤ) :
    (prioritize_demands P demands day).Sorted
        (fun a b => demandScore P b day ≤ demandScore P a day) ∧
      (prioritize_demands P demands day).Perm
        (filterP (fun d => 0 < d.remaining_quantity) demands) ∧
      ∀ d : Demand, demandScore P d day =
        (if d.end_delivery_day ≤ day then (1:ℚ)
          else 1 / (((d.end_delivery_day - day : ℤ) : ℚ) + 1)) * 0.4 +
        calculate_demand_efficiency P d * 0.3 +
        (1 - d.remaining_quantity / d.quantity) * 0.2 +
        min 1 (d.remaining_quantity / 500) * 0.1 := by
  refine ⟨?_, ?_, ?_⟩
  · haveI : IsTotal Demand (fun a b => demandScore P b day ≤ demandScore P a day) :=
      ⟨fun a b => le_total _ _⟩
    haveI : IsTrans Demand (fun a b => demandScore P b day ≤ demandScore P a day) :=
      ⟨fun a b c h1 h2 => le_trans h2 h1⟩
    exact List.sorted_insertionSort _ _
  · exact List.perm_insertionSort _ _
  · intro d
    simp only [demandScore, sub_nonpos]

/-- C10: every movement returned by `create_movements` carries the exact
quantity of a pooled opportunity—fixed at generation time, where quantities
below MIN_MOVEMENT (75) are discarded—because the select loop only skips or
filters opportunities and `_create_movement` copies the quantity.  -/
theorem c10_quantity_floor (P : AdvancedPlanner) (day : ℤ) (demands : List Demand)
    (m : Movement) (hm : m ∈ create_movements P day demands) :
    min_movement ≤ m.quantity ∧
      ∃ o ∈ opportunityPool P day demands, m = create_movement P o := by
  unfold create_movements at hm
  split at hm
  · simp at hm
  · rcases List.mem_map.mp hm with ⟨o, ho, rfl⟩
    have hpool := mem_committedOpps_pool P day demands o ho
    exact ⟨mem_pool_quantity P day demands o hpool, o, hpool, rfl⟩

/-- C10 (witness): the 680-unit movement over cSF of the run scenario.  -/
theorem c10_witness :
    min_movement ≤ (⟨"cSF", 680⟩ : Movement).quantity ∧
      ∃ o ∈ opportunityPool scenarioP 1 scenarioDemands,
        (⟨"cSF", 680⟩ : Movement) = create_movement scenarioP o :=
  c10_quantity_floor scenarioP 1 scenarioDemands ⟨"cSF", 680⟩
    (by rw [scenario_movements_eq]; exact List.mem_cons_self _ _)

/-- C4: in the spec §8 scenario (A: level 100 capacity 200, B: level 0
capacity 150, link capacity 80, one demand of 60 at B on day 1) the safe
quantity is min(60, 88, 70.4, 132) = 60, which is below MIN_MOVEMENT = 75,
so the code generates NO opportunity and `create_movements` returns the empty
list instead of the one movement the spec requires; and no code path in the
repository ever decrements `remaining_quantity`.  -/
theorem c4_scenario_produces_no_movement :
    create_movements c4P 1 [dB] = [] ∧
      generate_opportunities_for_demand c4P dB zeroDelta = [] ∧
      dB.remaining_quantity = 60 := by
  refine ⟨?_, ?_, rfl⟩ <;>
    norm_num +decide [create_movements, committedOpps, selectLoop, sortOpportunities,
      opportunityPool, prioritize_demands, demandScore, calculate_demand_efficiency,
      storage_facilities, generate_opportunities_for_demand, destToSource,
      sourceToDest, connGet, filterP, c4P, dB, zeroDelta, max_fill_ratio,
      min_fill_ratio, min_movement, max_movements_per_day, score_opportunity,
      calculate_metrics, List.insertionSort, List.orderedInsert,
      List.filterMap_cons, List.head?, List.flatten]

/-!  BFS correctness (claim C8).  -/

lemma filterP_congr {α : Type} {p q : α → Prop} [DecidablePred p] [DecidablePred q] :
    ∀ {l : List α}, (∀ a ∈ l, p a ↔ q a) → filterP p l = filterP q l
  | [], _ => rfl
  | x :: xs, h => by
    have hx := h x (List.mem_cons_self x xs)
    have ih := filterP_congr (fun a ha => h a (List.mem_cons_of_mem x ha))
    by_cases hp : p x
    · rw [filterP, if_pos hp, filterP, if_pos (hx.mp hp), ih]
    · rw [filterP, if_neg hp, filterP, if_neg (fun hq => hp (hx.mpr hq)), ih]

lemma length_filterP_le {α : Type} (p : α → Prop) [DecidablePred p] :
    ∀ l : List α, (filterP p l).length ≤ l.length
  | [] => le_refl _
  | x :: xs => by
    have ih := length_filterP_le p xs
    by_cases hp : p x
    · rw [filterP, if_pos hp]
      simpa using ih
    · rw [filterP, if_neg hp]
      exact le_trans ih (Nat.le_succ _)

lemma mem_addNew_new : ∀ (xs seen : List String) (y : String),
    y ∈ (addNew xs seen).1 ↔ y ∈ xs ∧ y ∉ seen
  | [], seen, y => by simp [addNew]
  | x :: xs, seen, y => by
    by_cases hx : x ∈ seen
    · rw [addNew, if_pos hx]
      rw [mem_addNew_new xs seen y]
      constructor
      · rintro ⟨h1, h2⟩
        exact ⟨List.mem_cons_of_mem x h1, h2⟩
      · rintro ⟨h1, h2⟩
        rcases List.mem_cons.mp h1 with rfl | h1
        · exact absurd hx h2
        · exact ⟨h1, h2⟩
    · rw [addNew, if_neg hx]
      show y ∈ x :: (addNew xs (x :: seen)).1 ↔ _
      rw [List.mem_cons, mem_addNew_new xs (x :: seen) y]
      constructor
      · rintro (rfl | ⟨h1, h2⟩)
        · exact ⟨List.mem_cons_self _ _, hx⟩
        · exact ⟨List.mem_cons_of_mem x h1, fun hc => h2 (List.mem_cons_of_mem x hc)⟩
      · rintro ⟨h1, h2⟩
        rcases List.mem_cons.mp h1 with rfl | h1
        · exact Or.inl rfl
        · by_cases hyx : y = x
          · exact Or.inl hyx
          · exact Or.inr ⟨h1, fun hc => by
              rcases List.mem_cons.mp hc with h | h
              · exact hyx h
              · exact h2 h⟩

lemma mem_addNew_seen : ∀ (xs seen : List String) (y : String),
    y ∈ (addNew xs seen).2 ↔ y ∈ xs ∨ y ∈ seen
  | [], seen, y => by simp [addNew]
  | x :: xs, seen, y => by
    by_cases hx : x ∈ seen
    · rw [addNew, if_pos hx, mem_addNew_seen xs seen y]
      constructor
      · rintro (h | h)
        · exact Or.inl (List.mem_cons_of_mem x h)
        · exact Or.inr h
      · rintro (h | h)
        · rcases List.mem_cons.mp h with rfl | h
          · exact Or.inr hx
          · exact Or.inl h
        · exact Or.inr h
    · rw [addNew, if_neg hx]
      show y ∈ (addNew xs (x :: seen)).2 ↔ _
      rw [mem_addNew_seen xs (x :: seen) y]
      constructor
      · rintro (h | h)
        · exact Or.inl (List.mem_cons_of_mem x h)
        · rcases List.mem_cons.mp h with rfl | h
          · exact Or.inl (List.mem_cons_self _ _)
          · exact Or.inr h
      · rintro (h | h)
        · rcases List.mem_cons.mp h with rfl | h
          · exact Or.inr (List.mem_cons_self y seen)
          · exact Or.inl h
        · exact Or.inr (List.mem_cons_of_mem x h)

lemma addNew_new_nodup : ∀ (xs seen : List String), (addNew xs seen).1.Nodup
  | [], seen => by simp [addNew]
  | x :: xs, seen => by
    by_cases hx : x ∈ seen
    · rw [addNew, if_pos hx]
      exact addNew_new_nodup xs seen
    · rw [addNew, if_neg hx]
      show (x :: (addNew xs (x :: seen)).1).Nodup
      refine List.nodup_cons.mpr ⟨?_, addNew_new_nodup xs (x :: seen)⟩
      intro hc
      exact ((mem_addNew_new xs (x :: seen) x).mp hc).2 (List.mem_cons_self x seen)

lemma ReachIn.snoc {adj : String → List String} {u w : String} {n : ℕ}
    (h : ReachIn adj u w n) : ∀ {v : String}, v ∈ adj w → ReachIn adj u v (n + 1) := by
  induction h with
  | refl u => exact fun hv => ReachIn.step hv (ReachIn.refl _)
  | step ha _ ih => exact fun hv => ReachIn.step ha (ih hv)

/-- Any walk from a seen node either ends seen, or crosses a first edge out
of the seen set.  -/
lemma reach_exit {adj : String → List String} (seen : List String) :
    ∀ {u w : String} {n : ℕ}, ReachIn adj u w n → u ∈ seen →
      w ∈ seen ∨ ∃ p s n1 n2, p ∈ seen ∧ s ∉ seen ∧ s ∈ adj p ∧
        ReachIn adj u p n1 ∧ ReachIn adj s w n2 ∧ n = n1 + 1 + n2 := by
  intro u w n h
  induction h with
  | refl u => exact fun hu => Or.inl hu
  | @step u v w n hv hr ih =>
    intro hu
    by_cases hvs : v ∈ seen
    · rcases ih hvs with hw | ⟨p, s, n1, n2, hp, hs, hadj, hup, hsw, heq⟩
      · exact Or.inl hw
      · exact Or.inr ⟨p, s, n1 + 1, n2, hp, hs, hadj, ReachIn.step hv hup, hsw, by omega⟩
    · exact Or.inr ⟨u, v, 0, n, hu, hvs, hv, ReachIn.refl u, hr, by omega⟩

lemma pairwise_all {α : Type} {R : α → α → Prop} (h : ∀ a b : α, R a b) :
    ∀ l : List α, l.Pairwise R := by
  intro l
  induction l with
  | nil => exact List.Pairwise.nil
  | cons x xs ih => exact List.Pairwise.cons (fun b _ => h x b) ih

lemma sourceToDest_sub_universe (P : AdvancedPlanner) (start node : String) :
    ∀ y ∈ sourceToDest P node, y ∈ nodeUniverse P start := by
  intro y hy
  unfold sourceToDest at hy
  rcases List.mem_map.mp hy with ⟨c, hc, rfl⟩
  have hcc : c ∈ P.connections := (mem_filterP.mp hc).1
  unfold nodeUniverse
  exact List.mem_dedup.mpr (List.mem_cons_of_mem _ (List.mem_map_of_mem _ hcc))

/-- One `bfsAux` step preserves the invariant.  -/
lemma bfs_step (P : AdvancedPlanner) (start node : String) (dist : ℕ)
    (rest : List (String × ℕ)) (seen : List String) (dists : List (String × ℕ))
    (inv : BfsInv P start ((node, dist) :: rest) seen dists) :
    BfsInv P start
      (rest ++ (addNew (sourceToDest P node) seen).1.map (fun x => (x, dist + 1)))
      (addNew (sourceToDest P node) seen).2 (dists ++ [(node, dist)]) := by
  set new := (addNew (sourceToDest P node) seen).1 with hnew_def
  set seen' := (addNew (sourceToDest P node) seen).2 with hseen_def
  have hmemn : ∀ y, y ∈ new ↔ y ∈ sourceToDest P node ∧ y ∉ seen :=
    fun y => mem_addNew_new _ _ y
  have hmems : ∀ y, y ∈ seen' ↔ y ∈ sourceToDest P node ∨ y ∈ seen :=
    fun y => mem_addNew_seen _ _ y
  have hnodupn : new.Nodup := addNew_new_nodup _ _
  have hhead := inv.queue_sound (node, dist) (List.mem_cons_self _ _)
  have hnode_reach : ReachIn (sourceToDest P) start node dist := hhead.1
  have hnode_seen : node ∈ seen := hhead.2
  have hsub : ∀ y ∈ seen, y ∈ seen' := fun y hy => (hmems y).mpr (Or.inr hy)
  have hhead_rel : ∀ b ∈ rest, dist ≤ b.2 ∧ b.2 ≤ dist + 1 :=
    (List.pairwise_cons.mp inv.queue_window).1
  have hrest_window := (List.pairwise_cons.mp inv.queue_window).2
  have hnew_min : ∀ x ∈ new, ∀ m, ReachIn (sourceToDest P) start x m → dist + 1 ≤ m := by
    intro x hx m hm
    have hxa := (hmemn x).mp hx
    rcases reach_exit seen hm inv.start_seen with hxs | ⟨p, s, n1, n2, hp, hs, hadj, hup, hsw, heq⟩
    · exact absurd hxs hxa.2
    · rcases inv.seen_covered p hp with ⟨dp, hdp⟩ | ⟨dp, hdp⟩
      · have hpk : p ∈ dists.map Prod.fst := List.mem_map_of_mem Prod.fst hdp
        exact absurd (inv.recorded_closed p hpk s hadj) hs
      · have hdm : dp ≤ n1 := inv.queue_min (p, dp) hdp n1 hup
        have hdd : dist ≤ dp := by
          rcases List.mem_cons.mp hdp with heq2 | hmem
          · injection heq2 with h1 h2
            omega
          · exact (hhead_rel (p, dp) hmem).1
        omega
  refine ⟨hsub start inv.start_seen, ?_, ?_, ?_, ?_, ?_, ?_, ?_, ?_, ?_, ?_⟩
  · -- queue_sound
    intro p hp
    rcases List.mem_append.mp hp with hp | hp
    · have := inv.queue_sound p (List.mem_cons_of_mem _ hp)
      exact ⟨this.1, hsub p.1 this.2⟩
    · rcases List.mem_map.mp hp with ⟨x, hx, rfl⟩
      exact ⟨hnode_reach.snoc ((hmemn x).mp hx).1,
        (hmems x).mpr (Or.inl ((hmemn x).mp hx).1)⟩
  · -- seen_covered
    intro w hw
    by_cases hws : w ∈ seen
    · rcases inv.seen_covered w hws with ⟨d, hd⟩ | ⟨d, hd⟩
      · exact Or.inl ⟨d, List.mem_append_left _ hd⟩
      · rcases List.mem_cons.mp hd with heq | hmem
        · refine Or.inl ⟨d, List.mem_append_right _ ?_⟩
          rw [heq]
          exact List.mem_singleton_self _
        · exact Or.inr ⟨d, List.mem_append_left _ hmem⟩
    · have hwn : w ∈ new := (hmemn w).mpr ⟨((hmems w).mp hw).resolve_right hws, hws⟩
      exact Or.inr ⟨dist + 1, List.mem_append_right _
        (List.mem_map_of_mem (fun x => (x, dist + 1)) hwn)⟩
  · -- keys_nodup
    have hmapq : (new.map (fun x => (x, dist + 1))).map Prod.fst = new := by
      induction new with
      | nil => rfl
      | cons a t ih => simp_all
    have hold := inv.keys_nodup
    rw [show ((node, dist) :: rest).map Prod.fst = node :: rest.map Prod.fst from rfl,
      List.cons_append, List.nodup_cons] at hold
    have hnode_not : node ∉ rest.map Prod.fst ++ dists.map Prod.fst := hold.1
    have hrd := List.nodup_append.mp hold.2
    have hrestK_seen : ∀ y ∈ rest.map Prod.fst, y ∈ seen := by
      intro y hy
      rcases List.mem_map.mp hy with ⟨p, hp, rfl⟩
      exact (inv.queue_sound p (List.mem_cons_of_mem _ hp)).2
    have hdistsK_seen : ∀ y ∈ dists.map Prod.fst, y ∈ seen := inv.dists_seen
    have hnew_not_seen : ∀ y ∈ new, y ∉ seen := fun y hy => ((hmemn y).mp hy).2
    rw [List.map_append, List.map_append, hmapq, List.nodup_append]
    refine ⟨?_, ?_, ?_⟩
    · rw [List.nodup_append]
      exact ⟨hrd.1, hnodupn, fun y hy hyn => hnew_not_seen y hyn (hrestK_seen y hy)⟩
    · rw [show (dists.map Prod.fst ++
          [(node, dist)].map Prod.fst) = dists.map Prod.fst ++ [node] from rfl,
        List.nodup_append]
      refine ⟨(List.nodup_append.mp hold.2).2.1, List.nodup_singleton _, ?_⟩
      intro y hy hyn
      rw [List.mem_singleton] at hyn
      subst hyn
      exact hnode_not (List.mem_append_right _ hy)
    · intro y hy hyn
      have hyn2 : y ∈ dists.map Prod.fst ∨ y = node := by
        rcases List.mem_append.mp hyn with h | h
        · exact Or.inl h
        · exact Or.inr (List.mem_singleton.mp h)
      rcases List.mem_append.mp hy with hyq | hyq
      · rcases hyn2 with h | h
        · exact hrd.2.2 hyq h
        · exact hnode_not (List.mem_append_left _ (h ▸ hyq))
      · rcases hyn2 with h | h
        · exact hnew_not_seen y hyq (hdistsK_seen y h)
        · exact hnew_not_seen y hyq (h.symm ▸ hnode_seen)
  · -- queue_window
    rw [List.pairwise_append]
    refine ⟨hrest_window, ?_, ?_⟩
    · rw [List.pairwise_map]
      exact pairwise_all (fun a b => ⟨le_refl _, Nat.le_succ _⟩) new
    · intro a ha b hb
      rcases List.mem_map.mp hb with ⟨x, hx, rfl⟩
      have := hhead_rel a ha
      exact ⟨by omega, by omega⟩
  · -- dists_sound
    intro w d hd
    rcases List.mem_append.mp hd with hd | hd
    · exact inv.dists_sound w d hd
    · rw [List.mem_singleton] at hd
      injection hd with h1 h2
      rw [h1, h2]
      exact hnode_reach
  · -- dists_min
    intro w d hd m hm
    rcases List.mem_append.mp hd with hd | hd
    · exact inv.dists_min w d hd m hm
    · rw [List.mem_singleton] at hd
      injection hd with h1 h2
      rw [h2]
      exact inv.queue_min (node, dist) (List.mem_cons_self _ _) m (h1 ▸ hm)
  · -- queue_min
    intro p hp m hm
    rcases List.mem_append.mp hp with hp | hp
    · exact inv.queue_min p (List.mem_cons_of_mem _ hp) m hm
    · rcases List.mem_map.mp hp with ⟨x, hx, rfl⟩
      exact hnew_min x hx m hm
  · -- recorded_closed
    intro w hw y hy
    rw [List.map_append, List.mem_append] at hw
    rcases hw with hw | hw
    · exact hsub y (inv.recorded_closed w hw y hy)
    · rw [show ([(node, dist)].map Prod.fst) = [node] from rfl,
        List.mem_singleton] at hw
      exact (hmems y).mpr (Or.inl (hw ▸ hy))
  · -- dists_seen
    intro w hw
    rw [List.map_append, List.mem_append] at hw
    rcases hw with hw | hw
    · exact hsub w (inv.dists_seen w hw)
    · rw [show ([(node, dist)].map Prod.fst) = [node] from rfl,
        List.mem_singleton] at hw
      rw [hw]
      exact hsub node hnode_seen
  · -- seen_sub
    intro w hw
    rcases (hmems w).mp hw with hw | hw
    · exact sourceToDest_sub_universe P start node w hw
    · exact inv.seen_sub w hw

lemma filterP_all {α : Type} {p : α → Prop} [DecidablePred p] :
    ∀ l : List α, (∀ a ∈ l, p a) → filterP p l = l
  | [], _ => rfl
  | x :: xs, h => by
    rw [filterP, if_pos (h x (List.mem_cons_self _ _)),
      filterP_all xs (fun a ha => h a (List.mem_cons_of_mem x ha))]

lemma filterP_remove_one {x : String} :
    ∀ (U seen : List String), U.Nodup → x ∈ U → x ∉ seen →
      (filterP (fun y => y ∉ x :: seen) U).length + 1 =
        (filterP (fun y => y ∉ seen) U).length
  | [], seen, _, hxU, _ => absurd hxU (List.not_mem_nil x)
  | u :: U', seen, hnd, hxU, hxs => by
    have hu_notin : u ∉ U' := (List.nodup_cons.mp hnd).1
    have hnd' : U'.Nodup := (List.nodup_cons.mp hnd).2
    by_cases hux : u = x
    · subst hux
      have hcong : filterP (fun y => y ∉ u :: seen) U' = filterP (fun y => y ∉ seen) U' := by
        apply filterP_congr
        intro a ha
        have hau : a ≠ u := fun h => hu_notin (h ▸ ha)
        constructor
        · intro h hc
          exact h (List.mem_cons_of_mem u hc)
        · intro h hc
          rcases List.mem_cons.mp hc with h2 | h2
          · exact hau h2
          · exact h h2
      rw [filterP, if_neg (fun h => h (List.mem_cons_self u seen)), hcong,
        filterP, if_pos hxs]
      rfl
    · have hxU' : x ∈ U' := by
        rcases List.mem_cons.mp hxU with h | h
        · exact absurd h.symm hux
        · exact h
      by_cases hus : u ∈ seen
      · rw [filterP, if_neg (fun h => h (List.mem_cons_of_mem x hus)),
          filterP, if_neg (fun h => h hus)]
        exact filterP_remove_one U' seen hnd' hxU' hxs
      · have hu_not : u ∉ x :: seen := by
          intro hc
          rcases List.mem_cons.mp hc with h | h
          · exact hux h
          · exact hus h
        rw [filterP, if_pos hu_not, filterP, if_pos hus]
        simp only [List.length_cons]
        have := filterP_remove_one U' seen hnd' hxU' hxs
        omega

lemma addNew_measure :
    ∀ (xs seen U : List String), U.Nodup → (∀ y ∈ xs, y ∈ U) →
      (filterP (fun y => y ∉ (addNew xs seen).2) U).length + (addNew xs seen).1.length ≤
        (filterP (fun y => y ∉ seen) U).length
  | [], seen, U, _, _ => by
    rw [addNew]
    simp
  | x :: xs, seen, U, hU, hsub => by
    have hsub' : ∀ y ∈ xs, y ∈ U := fun y hy => hsub y (List.mem_cons_of_mem x hy)
    by_cases hx : x ∈ seen
    · rw [addNew, if_pos hx]
      exact addNew_measure xs seen U hU hsub'
    · rw [addNew, if_neg hx]
      have ih := addNew_measure xs (x :: seen) U hU hsub'
      have hrm := filterP_remove_one U seen hU (hsub x (List.mem_cons_self _ _)) hx
      show (filterP (fun y => y ∉ (addNew xs (x :: seen)).2) U).length +
        ((addNew xs (x :: seen)).1.length + 1) ≤ _
      omega

/-- The terminal state of a bfs run: the recorded distances are sound,
minimal, complete for reachability, and have distinct keys.  -/
lemma bfs_final (P : AdvancedPlanner) (start : String) (seen : List String)
    (dists : List (String × ℕ)) (inv : BfsInv P start [] seen dists) :
    (∀ w d, (w, d) ∈ dists → ReachIn (sourceToDest P) start w d ∧
        ∀ m, ReachIn (sourceToDest P) start w m → d ≤ m) ∧
      (∀ w m, ReachIn (sourceToDest P) start w m → ∃ d, (w, d) ∈ dists ∧ d ≤ m) ∧
      (dists.map Prod.fst).Nodup := by
  refine ⟨fun w d hd => ⟨inv.dists_sound w d hd, inv.dists_min w d hd⟩, ?_, ?_⟩
  · intro w m hm
    rcases reach_exit seen hm inv.start_seen with hw | ⟨p, s, _, _, hp, hs, hadj, _, _, _⟩
    · rcases inv.seen_covered w hw with ⟨d, hd⟩ | ⟨d, hd⟩
      · exact ⟨d, hd, inv.dists_min w d hd m hm⟩
      · exact absurd hd (List.not_mem_nil _)
    · rcases inv.seen_covered p hp with ⟨dp, hdp⟩ | ⟨dp, hdp⟩
      · exact absurd (inv.recorded_closed p (List.mem_map_of_mem Prod.fst hdp) s hadj) hs
      · exact absurd hdp (List.not_mem_nil _)
  · have h := inv.keys_nodup
    simpa using h

lemma bfsAux_correct (P : AdvancedPlanner) (start : String) :
    ∀ (fuel : ℕ) (q : List (String × ℕ)) (seen : List String)
      (dists : List (String × ℕ)),
      BfsInv P start q seen dists →
      bfsMeasure P start q seen ≤ fuel →
      (∀ w d, (w, d) ∈ bfsAux P fuel q seen dists →
          ReachIn (sourceToDest P) start w d ∧
            ∀ m, ReachIn (sourceToDest P) start w m → d ≤ m) ∧
        (∀ w m, ReachIn (sourceToDest P) start w m →
          ∃ d, (w, d) ∈ bfsAux P fuel q seen dists ∧ d ≤ m) ∧
        ((bfsAux P fuel q seen dists).map Prod.fst).Nodup := by
  intro fuel
  induction fuel with
  | zero =>
    intro q seen dists inv hmu
    have hq : q = [] := by
      unfold bfsMeasure at hmu
      cases q with
      | nil => rfl
      | cons a t =>
        rw [List.length_cons] at hmu
        omega
    subst hq
    exact bfs_final P start seen dists inv
  | succ fuel ih =>
    intro q seen dists inv hmu
    cases q with
    | nil => exact bfs_final P start seen dists inv
    | cons p rest =>
      obtain ⟨node, dist⟩ := p
      rw [show bfsAux P (fuel + 1) ((node, dist) :: rest) seen dists =
        bfsAux P fuel
          (rest ++ (addNew (sourceToDest P node) seen).1.map (fun x => (x, dist + 1)))
          (addNew (sourceToDest P node) seen).2 (dists ++ [(node, dist)]) from rfl]
      apply ih
      · exact bfs_step P start node dist rest seen dists inv
      · unfold bfsMeasure at hmu ⊢
        have ha := addNew_measure (sourceToDest P node) seen (nodeUniverse P start)
          (List.nodup_dedup _) (sourceToDest_sub_universe P start node)
        rw [List.length_append, List.length_map]
        rw [List.length_cons] at hmu
        omega

lemma bfs_correct (P : AdvancedPlanner) (start : String) :
    (∀ w d, (w, d) ∈ bfs P start → ReachIn (sourceToDest P) start w d ∧
        ∀ m, ReachIn (sourceToDest P) start w m → d ≤ m) ∧
      (∀ w m, ReachIn (sourceToDest P) start w m →
        ∃ d, (w, d) ∈ bfs P start ∧ d ≤ m) ∧
      ((bfs P start).map Prod.fst).Nodup := by
  have hstartU : start ∈ nodeUniverse P start :=
    List.mem_dedup.mpr (List.mem_cons_self _ _)
  apply bfsAux_correct
  · refine ⟨List.mem_singleton_self _, ?_, ?_, ?_, ?_, ?_, ?_, ?_, ?_, ?_, ?_⟩
    · intro p hp
      rw [List.mem_singleton] at hp
      subst hp
      exact ⟨ReachIn.refl start, List.mem_singleton_self _⟩
    · intro w hw
      rw [List.mem_singleton] at hw
      subst hw
      exact Or.inr ⟨0, List.mem_singleton_self _⟩
    · simp
    · simp
    · intro w d hd
      exact absurd hd (List.not_mem_nil _)
    · intro w d hd
      exact absurd hd (List.not_mem_nil _)
    · intro p hp m _
      rw [List.mem_singleton] at hp
      subst hp
      exact Nat.zero_le m
    · intro w hw
      exact absurd hw (List.not_mem_nil _)
    · intro w hw
      exact absurd hw (List.not_mem_nil _)
    · intro w hw
      rw [List.mem_singleton] at hw
      subst hw
      exact hstartU
  · unfold bfsMeasure
    have hrm := filterP_remove_one (nodeUniverse P start) [] (List.nodup_dedup _)
      hstartU (List.not_mem_nil start)
    have hall : filterP (fun y => y ∉ ([] : List String)) (nodeUniverse P start) =
        nodeUniverse P start :=
      filterP_all _ (fun a _ => List.not_mem_nil a)
    rw [hall] at hrm
    rw [List.length_singleton]
    omega

lemma alookup_mem {κ β : Type} [DecidableEq κ] :
    ∀ {l : List (κ × β)} {k : κ} {v : β}, alookup l k = some v → (k, v) ∈ l
  | [], k, v, h => by simp [alookup] at h
  | p :: ps, k, v, h => by
    by_cases hp : p.1 = k
    · rw [alookup, if_pos hp] at h
      injection h with h2
      have hkv : (k, v) = p := by rw [← hp, ← h2]
      rw [hkv]
      exact List.mem_cons_self _ _
    · rw [alookup, if_neg hp] at h
      exact List.mem_cons_of_mem _ (alookup_mem h)

lemma mem_alookup {κ β : Type} [DecidableEq κ] :
    ∀ {l : List (κ × β)} {k : κ} {v : β},
      (l.map Prod.fst).Nodup → (k, v) ∈ l → alookup l k = some v
  | [], _, _, _, h => absurd h (List.not_mem_nil _)
  | p :: ps, k, v, hnd, h => by
    rcases List.mem_cons.mp h with heq | hmem
    · rw [alookup, if_pos (congrArg Prod.fst heq).symm]
      rw [show p.2 = v from (congrArg Prod.snd heq).symm]
    · have hk : p.1 ≠ k := by
        intro hc
        have hkm : k ∈ ps.map Prod.fst := by
          have := List.mem_map_of_mem Prod.fst hmem
          simpa using this
        rw [List.map_cons, List.nodup_cons] at hnd
        exact hnd.1 (hc ▸ hkm)
      rw [alookup, if_neg hk]
      exact mem_alookup (by rw [List.map_cons, List.nodup_cons] at hnd; exact hnd.2) hmem

lemma alookup_append {κ β : Type} [DecidableEq κ] :
    ∀ (l1 l2 : List (κ × β)) (k : κ), alookup (l1 ++ l2) k =
      match alookup l1 k with
      | some v => some v
      | none => alookup l2 k
  | [], l2, k => rfl
  | p :: ps, l2, k => by
    by_cases hp : p.1 = k
    · rw [List.cons_append, alookup, if_pos hp, alookup, if_pos hp]
    · rw [List.cons_append, alookup, if_neg hp, alookup, if_neg hp]
      exact alookup_append ps l2 k

lemma alookup_block (s u v : String) :
    ∀ l : List (String × ℕ),
      alookup (l.map (fun p => ((s, p.1), p.2))) (u, v) =
        if s = u then alookup l v else none
  | [] => by by_cases h : s = u <;> simp [alookup, h]
  | p :: ps => by
    have ih := alookup_block s u v ps
    by_cases hsu : s = u
    · subst hsu
      rw [if_pos rfl] at ih ⊢
      by_cases hpv : p.1 = v
      · rw [List.map_cons, alookup, if_pos (show ((s, p.1) : String × String) = (s, v) by
          rw [hpv]), alookup, if_pos hpv]
      · rw [List.map_cons, alookup,
          if_neg (show ¬ ((s, p.1) : String × String) = (s, v) from
            fun hc => hpv (congrArg Prod.snd hc)),
          alookup, if_neg hpv, ih]
    · rw [if_neg hsu] at ih ⊢
      rw [List.map_cons, alookup,
        if_neg (show ¬ ((s, p.1) : String × String) = (u, v) from
          fun hc => hsu (congrArg Prod.fst hc)), ih]

lemma path_lookup_none (P : AdvancedPlanner) (v : String) :
    ∀ (ids : List String) (u : String), u ∉ ids →
      alookup ((ids.map (fun s => (bfs P s).map (fun p => ((s, p.1), p.2)))).flatten)
        (u, v) = none
  | [], u, _ => rfl
  | s :: rest, u, hu => by
    have hsu : s ≠ u := fun hc => hu (hc ▸ List.mem_cons_self _ _)
    rw [List.map_cons, List.flatten_cons, alookup_append, alookup_block,
      if_neg hsu, path_lookup_none P v rest u (fun hc => hu (List.mem_cons_of_mem _ hc))]

lemma path_lookup (P : AdvancedPlanner) (v : String) :
    ∀ (ids : List String) (u : String), u ∈ ids →
      alookup ((ids.map (fun s => (bfs P s).map (fun p => ((s, p.1), p.2)))).flatten)
        (u, v) = alookup (bfs P u) v
  | [], u, hu => absurd hu (List.not_mem_nil _)
  | s :: rest, u, hu => by
    rw [List.map_cons, List.flatten_cons, alookup_append, alookup_block]
    by_cases hsu : s = u
    · subst hsu
      rw [if_pos rfl]
      cases hb : alookup (bfs P s) v with
      | some d => rfl
      | none =>
        by_cases hur : s ∈ rest
        · rw [path_lookup P v rest s hur, hb]
        · rw [path_lookup_none P v rest s hur]
    · rw [if_neg hsu]
      have hur : u ∈ rest := by
        rcases List.mem_cons.mp hu with h | h
        · exact absurd h.symm hsu
        · exact h
      rw [path_lookup P v rest u hur]

/-- C8: the Path Index built by `_calculate_path_distances` has an entry for
(u, v) (u a facility) exactly when v is BFS-reachable from u over the
directed source_to_dest adjacency; a recorded entry is a realizable hop count
and minimal among all walk lengths; and `_calculate_demand_efficiency`
returns 0.0 (not an error) when the customer is unreachable from every
qualifying storage facility.  -/
theorem c8_path_index (P : AdvancedPlanner) (u v : String) (hu : u ∈ P.facIds) :
    ((alookup (calculate_path_distances P) (u, v)).isSome ↔
        Reachable (sourceToDest P) u v) ∧
      (∀ dd, alookup (calculate_path_distances P) (u, v) = some dd →
        ReachIn (sourceToDest P) u v dd ∧
          ∀ m, ReachIn (sourceToDest P) u v m → dd ≤ m) ∧
      (∀ dem : Demand,
        (∀ s ∈ storage_facilities P,
          ¬ Reachable (sourceToDest P) s dem.customer_id) →
        calculate_demand_efficiency P dem = 0) := by
  have hlookup := path_lookup P v P.facIds u hu
  obtain ⟨hsound, hcomplete, hnodup⟩ := bfs_correct P u
  refine ⟨?_, ?_, ?_⟩
  · rw [show calculate_path_distances P =
      (P.facIds.map (fun s => (bfs P s).map (fun p => ((s, p.1), p.2)))).flatten
      from rfl, hlookup]
    constructor
    · intro hs
      rcases Option.isSome_iff_exists.mp hs with ⟨d, hd⟩
      exact ⟨d, (hsound v d (alookup_mem hd)).1⟩
    · rintro ⟨m, hm⟩
      rcases hcomplete v m hm with ⟨d, hd, _⟩
      rw [mem_alookup hnodup hd]
      rfl
  · intro dd hdd
    rw [show calculate_path_distances P =
      (P.facIds.map (fun s => (bfs P s).map (fun p => ((s, p.1), p.2)))).flatten
      from rfl, hlookup] at hdd
    exact hsound v dd (alookup_mem hdd)
  · intro dem hunreach
    have hnone : ∀ s ∈ storage_facilities P,
        alookup (calculate_path_distances P) (s, dem.customer_id) = none := by
      intro s hs
      have hsid : s ∈ P.facIds := by
        unfold storage_facilities at hs
        exact (mem_filterP.mp hs).1
      rw [show calculate_path_distances P =
        (P.facIds.map (fun s => (bfs P s).map (fun p => ((s, p.1), p.2)))).flatten
        from rfl, path_lookup P dem.customer_id P.facIds s hsid]
      obtain ⟨hsound2, _, _⟩ := bfs_correct P s
      cases hb : alookup (bfs P s) dem.customer_id with
      | none => rfl
      | some d =>
        exact absurd ⟨d, (hsound2 _ d (alookup_mem hb)).1⟩ (hunreach s hs)
    have hempty : (storage_facilities P).filterMap
        (fun s => alookup (calculate_path_distances P) (s, dem.customer_id)) = [] := by
      rw [List.filterMap_eq_nil_iff]
      exact hnone
    simp only [calculate_demand_efficiency]
    rw [hempty]
    rfl

/-- C8 (witness): instantiated at the run scenario with u = S, v = D1
(reachable in two hops through F).  -/
theorem c8_witness :
    ((alookup (calculate_path_distances scenarioP) ("S", "D1")).isSome ↔
        Reachable (sourceToDest scenarioP) "S" "D1") ∧
      (∀ dd, alookup (calculate_path_distances scenarioP) ("S", "D1") = some dd →
        ReachIn (sourceToDest scenarioP) "S" "D1" dd ∧
          ∀ m, ReachIn (sourceToDest scenarioP) "S" "D1" m → dd ≤ m) ∧
      (∀ dem : Demand,
        (∀ s ∈ storage_facilities scenarioP,
          ¬ Reachable (sourceToDest scenarioP) s dem.customer_id) →
        calculate_demand_efficiency scenarioP dem = 0) :=
  c8_path_index scenarioP "S" "D1" (by decide)

end SmartHack
